import Mathlib

/-!
# Verification of the mcserver repository against its specification

This file shallowly embeds the core of the `mcserver` repository
(the NBT tape parser of `nbt/src/parse.rs` and its value surface in
`nbt/src/value.rs`, the wire primitives of `protocol/src/buf.rs`, the
packet framing of `packet/src/lib.rs`, and the connection state
machine of `server/src/connection.rs`) and proves or refutes the
specification's claims about them.

Modelling conventions:

* Byte buffers are `List Nat`, each element a byte in `0..=255`.
  The `bytes::Buf` reader primitives, which panic on underflow, are
  modelled as `Option`-returning functions (`none` models a panic).
* Machine integers are carried as their unsigned bit patterns
  (`Nat`, reduced modulo `2^w` where the code can overflow); the
  signed view is recovered with `toSigned`.
* Loops are modelled either by structural recursion on the input
  list or, where the Rust loop's termination argument is indirect
  (the NBT tape parser), by a fuel parameter large enough for every
  terminating run; running out of fuel yields `none`, the same
  value that models a panic.
-/

deriving instance DecidableEq for Except

/-- Signed two's-complement reading of a `bits`-wide bit pattern. -/
def toSigned (bits : Nat) (u : Nat) : Int :=
  if u < 2 ^ (bits - 1) then (u : Int) else (u : Int) - 2 ^ bits

/-- Unsigned 32-bit pattern of an `i32` value. -/
def toPat32 (v : Int) : Nat := (v % (2 ^ 32 : Int)).toNat

/-- Models `bytes::Buf::get_u8`: read one byte, panicking (`none`) on underflow. -/
def getU8 : List Nat → Option (Nat × List Nat)
  | [] => none
  | b :: r => some (b, r)

/-- Models `bytes::Buf::get_u16` (big-endian). -/
def getU16 (s : List Nat) : Option (Nat × List Nat) := do
  let (b0, s) ← getU8 s
  let (b1, s) ← getU8 s
  pure (b0 * 2 ^ 8 + b1, s)

/-- Models `bytes::Buf::get_u32` (big-endian). -/
def getU32 (s : List Nat) : Option (Nat × List Nat) := do
  let (b0, s) ← getU8 s
  let (b1, s) ← getU8 s
  let (b2, s) ← getU8 s
  let (b3, s) ← getU8 s
  pure (b0 * 2 ^ 24 + b1 * 2 ^ 16 + b2 * 2 ^ 8 + b3, s)

/-- Models `bytes::Buf::get_u64` (big-endian). -/
def getU64 (s : List Nat) : Option (Nat × List Nat) := do
  let (hi, s) ← getU32 s
  let (lo, s) ← getU32 s
  pure (hi * 2 ^ 32 + lo, s)

/-- Models `bytes::Buf::advance`, which panics when advancing past the end. -/
def advanceBy (n : Nat) (s : List Nat) : Option (List Nat) :=
  if n ≤ s.length then some (s.drop n) else none

/-! ## Wire primitives (`protocol/src/buf.rs`)

`VARINT_SEGMENT_BITS = 0x7F` and `VARINT_CONTINUE_BIT = 0x80`.
-/

/-- Error type of the varint readers (`GetVarIntError`). -/
inductive GetVarIntError where
  | tooBig
deriving DecidableEq, Repr

/-- Loop body of `get_varint_with_at_most`.  The accumulated `value` is the
`i32` bit pattern; `value |= ((byte & 0x7F) as i32) << position` is modelled
with the shifted chunk truncated to 32 bits, exactly like the Rust `i32`
shift.  Reading from an empty buffer models the `get_u8` panic. -/
def getVarintLoop (budget : Nat) :
    List Nat → Nat → Nat → Option (Except GetVarIntError (Nat × List Nat))
  | [], _, _ => none
  | b :: r, value, position =>
    let value := value ||| ((b &&& 127) <<< position % 2 ^ 32)
    if b &&& 128 == 0 then
      some (.ok (value, r))
    else
      let position := position + 7
      if budget * 8 ≤ position then
        some (.error .tooBig)
      else
        getVarintLoop budget r value position

/-- Models `get_varint_with_at_most(buf, bytes)`. -/
def get_varint_with_at_most (bytes : Nat) (buf : List Nat) :
    Option (Except GetVarIntError (Nat × List Nat)) :=
  getVarintLoop bytes buf 0 0

/-- Models `get_varint(buf)`, which is `get_varint_with_at_most(buf, 4)`. -/
def get_varint (buf : List Nat) : Option (Except GetVarIntError (Nat × List Nat)) :=
  get_varint_with_at_most 4 buf

/-- Loop body of `try_get_varint_with_at_most`, which checks `remaining`
before each read and therefore never panics. -/
def tryGetVarintLoop (budget : Nat) :
    List Nat → Nat → Nat → Except GetVarIntError (Option (Nat × List Nat))
  | [], _, _ => .ok none
  | b :: r, value, position =>
    let value := value ||| ((b &&& 127) <<< position % 2 ^ 32)
    if b &&& 128 == 0 then
      .ok (some (value, r))
    else
      let position := position + 7
      if budget * 8 ≤ position then
        .error .tooBig
      else
        tryGetVarintLoop budget r value position

/-- Models `try_get_varint_with_at_most(buf, bytes)`. -/
def try_get_varint_with_at_most (bytes : Nat) (buf : List Nat) :
    Except GetVarIntError (Option (Nat × List Nat)) :=
  tryGetVarintLoop bytes buf 0 0

/-- Models `put_varint` on the `i32` bit pattern.  The Rust loop tests
`varint & !(0x7F as i32) == 0` (the mask `!0x7F` on `i32` is the pattern
`0xFFFFFF80`), emits `(varint & 0xFF) as u8` resp.
`(((varint & 0xFF) as u8) & 0x7F) | 0x80`, and logically shifts by 7. -/
def put_varint (u : Nat) : List Nat :=
  if h : u &&& 0xFFFFFF80 = 0 then
    [u &&& 255]
  else
    (((u &&& 255) &&& 127) ||| 128) :: put_varint (u >>> 7)
termination_by u
decreasing_by
  have hu : u ≠ 0 := by
    intro h0
    subst h0
    simp at h
  calc u >>> 7 = u / 2 ^ 7 := Nat.shiftRight_eq_div_pow u 7
    _ < u := Nat.div_lt_self (Nat.pos_of_ne_zero hu) (by decide)

/-- `put_varint` applied to an `i32` value. -/
def put_varint_i32 (v : Int) : List Nat := put_varint (toPat32 v)

/-- Models `get_bool`: `buf.get_u8() == 0x01`. -/
def get_bool (buf : List Nat) : Option (Bool × List Nat) :=
  match getU8 buf with
  | none => none
  | some (b, r) => some (b == 1, r)

/-- Models `put_bool`. -/
def put_bool (b : Bool) : List Nat :=
  match b with
  | true => [1]
  | false => [0]

/-! ## NBT tags (`nbt/src/tag.rs`) -/

/-- The 13 NBT tags, encoded as a byte `0..=12`. -/
inductive Tag where
  | End | Byte | Short | Int | Long | Float | Double
  | ByteArray | String | List | Compound | IntArray | LongArray
deriving DecidableEq, Repr, Inhabited

/-- Models `Tag::to_u8`. -/
def Tag.toU8 : Tag → Nat
  | .End => 0 | .Byte => 1 | .Short => 2 | .Int => 3 | .Long => 4
  | .Float => 5 | .Double => 6 | .ByteArray => 7 | .String => 8
  | .List => 9 | .Compound => 10 | .IntArray => 11 | .LongArray => 12

/-- Models `Tag::from_u8_unchecked`; every call site passes a value in
`0..=12` (or `0` after the `0xFF` list-item marker is masked), so the
default arm is never reached on the embedded code paths. -/
def Tag.fromU8 : Nat → Tag
  | 0 => .End | 1 => .Byte | 2 => .Short | 3 => .Int | 4 => .Long
  | 5 => .Float | 6 => .Double | 7 => .ByteArray | 8 => .String
  | 9 => .List | 10 => .Compound | 11 => .IntArray | 12 => .LongArray
  | _ => .End

/-- Models `<Tag as TryFrom<u8>>::try_from`: tag bytes `0..=12` are valid. -/
def Tag.tryFromU8 (value : Nat) : Option Tag :=
  if value < 13 then some (Tag.fromU8 value) else none

/-! ## The NBT tape (`nbt/src/parse.rs`)

`TapeItem` packs, into a `u64`, the list length (32 bits), a list tag
byte (`0xFF` when the entry is itself a list item), the entry's tag
byte and the name length (16 bits), next to a source position and a
tag-dependent data word.  We model the packed word by its disjoint
fields; `TapeItem.new` performs exactly the truncations the packing
performs (the Rust `(list_len as u64) << 32` sign-extends an `i32`
and then shifts the extension bits out, keeping the low 32 bits).
-/

structure TapeItem where
  tag : Tag
  nameLen : Nat
  sourcePos : Nat
  data : Nat
  /-- The list tag byte: `0xFF` for a list item, the element tag of a
  `List` entry, `0` otherwise. -/
  listTagByte : Nat
  /-- The low 32 bits of the list length (an `i32` pattern). -/
  listLenPat : Nat
deriving DecidableEq, Repr, Inhabited

/-- Models `TapeItem::new`.  `listData` carries the element tag and the
`i32` bit pattern of the list length. -/
def TapeItem.new (tag : Tag) (nameLen sourcePos : Nat) (data : Nat)
    (isListItem : Bool) (listData : Option (Tag × Nat)) : TapeItem :=
  match listData with
  | some (t, lenPat) =>
    { tag, nameLen, sourcePos, data
      listTagByte := if isListItem then 255 else t.toU8
      listLenPat := lenPat % 2 ^ 32 }
  | none =>
    { tag, nameLen, sourcePos, data, listTagByte := 0, listLenPat := 0 }

/-- Models `TapeItem::is_list_item`. -/
def TapeItem.isListItem (it : TapeItem) : Bool := it.listTagByte == 255

/-- Models `TapeItem::get_list_len` (result is an `i32` bit pattern). -/
def TapeItem.getListLen (it : TapeItem) : Nat := it.listLenPat

/-- Models `TapeItem::get_list_tag`. -/
def TapeItem.getListTag (it : TapeItem) : Tag :=
  Tag.fromU8 (if it.listTagByte == 255 then 0 else it.listTagByte)

/-- Models `TapeItem::get_source_payload_pos`. -/
def TapeItem.getSourcePayloadPos (it : TapeItem) : Nat :=
  it.sourcePos +
    match it.tag with
    | .End => 1
    | _ => if it.isListItem then 0 else 3 + it.nameLen

/-- Models `TapeItem::set_data`. -/
def TapeItem.setData (it : TapeItem) (d : Nat) : TapeItem := { it with data := d }

/-- Models the NBT parse errors of `NbtParseError` (the string-decoding
variant never arises during tape construction). -/
inductive NbtParseError where
  | wrongStartingTag (tag : Tag) (expected : Tag)
  | invalidTag (value : Nat) (pos : Nat)
  | invalidListType (tag : Tag)
  | unexpectedEnd (pos : Nat)
  | suddenEnd
deriving DecidableEq, Repr

/-- A frame of the scope stack in `Tape::parse`; `listData` carries the
element tag and remaining count of a list scope (`ListData` keeps the
count in its low 32 bits, always a non-negative `i32` here because a
list frame is pushed only when the declared length is positive). -/
structure StackItem where
  startTagTapePos : Nat
  listData : Option (Tag × Nat)
deriving DecidableEq, Repr

/-- `tape[i].set_data(d)`; the index is always in range on the embedded
code paths (out of range would be a panic in Rust). -/
def setDataAt (tape : List TapeItem) (i : Nat) (d : Nat) : List TapeItem :=
  match tape[i]? with
  | some it => tape.set i (it.setData d)
  | none => tape

/-- One refinement of the `while source.has_remaining()` loop of
`Tape::parse`.  The stack is kept head-first (the Rust `Vec`'s last
element, i.e. the top, is our head).  `none` models a panic (a
`bytes::Buf` underflow) or fuel exhaustion; the fuel given by
`Tape.parse` covers every terminating run. -/
def parseLoop (isNetworkNbt : Bool) (fullLen : Nat) :
    Nat → List Nat → List TapeItem → List StackItem →
    Option (Except NbtParseError (List TapeItem))
  | 0, _, _, _ => none
  | fuel + 1, src, tape, stack =>
    if src.isEmpty then
      -- all compound/list scopes must be closed
      if stack.isEmpty then some (.ok tape) else some (.error .suddenEnd)
    else
      let tagPos := fullLen - src.length
      -- step 1: close a list scope whose remaining count is zero,
      -- otherwise consume one element of the count
      let pre : List TapeItem × List StackItem × Nat :=
        match stack with
        | ⟨s, some (lt, llen)⟩ :: rest =>
          if llen == 0 then
            let tape1 := tape ++ [TapeItem.new .End 0 tagPos s true none]
            (setDataAt tape1 s tape.length, rest, tape.length + 1)
          else
            (tape, ⟨s, some (lt, llen - 1)⟩ :: rest, tape.length)
        | _ => (tape, stack, tape.length)
      let tape := pre.1
      let stack := pre.2.1
      let tagTapePos := pre.2.2
      -- step 2/3: determine the tag, the name length and the remaining source
      let read : Except NbtParseError (Tag × Nat × Bool × List Nat) ⊕ Unit :=
        match stack with
        | ⟨_, some (lt, _)⟩ :: _ => .inl (.ok (lt, 0, true, src))
        | _ =>
          match getU8 src with
          | none => .inr ()
          | some (b, src1) =>
            match Tag.tryFromU8 b with
            | none => .inl (.error (.invalidTag b tagPos))
            | some tag =>
              match tag with
              | .End => .inl (.ok (tag, 0, false, src1))
              | _ =>
                if isNetworkNbt && tagTapePos == 0 then
                  .inl (.ok (tag, 0, false, src1))
                else
                  match getU16 src1 with
                  | none => .inr ()
                  | some (nameLen, src2) =>
                    match advanceBy nameLen src2 with
                    | none => .inr ()
                    | some src3 => .inl (.ok (tag, nameLen, false, src3))
      match read with
      | .inr () => none
      | .inl (.error e) => some (.error e)
      | .inl (.ok (tag, nameLen, isListItem, src)) =>
        -- step 4: the root entry must be a compound
        if tagTapePos == 0 then
          if tag ≠ Tag.Compound then
            some (.error (.wrongStartingTag tag .Compound))
          else
            parseLoop isNetworkNbt fullLen fuel src
              (tape ++ [TapeItem.new .Compound nameLen 0 0 false none])
              (⟨0, none⟩ :: stack)
        else
          -- step 5: dispatch on the tag
          let step : Except NbtParseError
              (Nat × List Nat × List TapeItem × List StackItem ×
                Option (Tag × Nat)) ⊕ Unit :=
            match tag with
            | .End =>
              match stack with
              | [] => .inl (.error (.unexpectedEnd (fullLen - src.length)))
              | ⟨cPos, _⟩ :: rest =>
                .inl (.ok (cPos, src, setDataAt tape cPos tagTapePos, rest, none))
            | .Byte =>
              match getU8 src with
              | none => .inr ()
              | some (v, src1) => .inl (.ok (v, src1, tape, stack, none))
            | .Short =>
              match getU16 src with
              | none => .inr ()
              | some (v, src1) => .inl (.ok (v, src1, tape, stack, none))
            | .Int =>
              match getU32 src with
              | none => .inr ()
              | some (v, src1) => .inl (.ok (v, src1, tape, stack, none))
            | .Long =>
              match getU64 src with
              | none => .inr ()
              | some (v, src1) => .inl (.ok (v, src1, tape, stack, none))
            | .Float =>
              -- `f32::to_bits(source.get_f32())` is the raw big-endian u32
              match getU32 src with
              | none => .inr ()
              | some (v, src1) => .inl (.ok (v, src1, tape, stack, none))
            | .Double =>
              match getU64 src with
              | none => .inr ()
              | some (v, src1) => .inl (.ok (v, src1, tape, stack, none))
            | .ByteArray =>
              match getU32 src with
              | none => .inr ()
              | some (len, src1) =>
                match advanceBy len src1 with
                | none => .inr ()
                | some src2 => .inl (.ok (len, src2, tape, stack, none))
            | .String =>
              match getU16 src with
              | none => .inr ()
              | some (len, src1) =>
                match advanceBy len src1 with
                | none => .inr ()
                | some src2 => .inl (.ok (len, src2, tape, stack, none))
            | .List =>
              match getU8 src with
              | none => .inr ()
              | some (tb, src1) =>
                match getU32 src1 with
                | none => .inr ()
                | some (lenPat, src2) =>
                  match Tag.tryFromU8 tb with
                  | none => .inl (.error (.invalidTag tb tagPos))
                  | some listTag =>
                    -- `len > 0` on the i32 pattern
                    if 0 < lenPat ∧ lenPat < 2 ^ 31 then
                      if listTag = Tag.End then
                        .inl (.error (.invalidListType listTag))
                      else
                        .inl (.ok (0, src2, tape,
                          ⟨tagTapePos, some (listTag, lenPat)⟩ :: stack,
                          some (listTag, lenPat)))
                    else
                      .inl (.ok (0, src2, tape, stack, some (listTag, lenPat)))
            | .Compound =>
              .inl (.ok (0, src, tape, ⟨tagTapePos, none⟩ :: stack, none))
            | .IntArray =>
              match getU32 src with
              | none => .inr ()
              | some (len, src1) =>
                match advanceBy (4 * len) src1 with
                | none => .inr ()
                | some src2 => .inl (.ok (len, src2, tape, stack, none))
            | .LongArray =>
              match getU32 src with
              | none => .inr ()
              | some (len, src1) =>
                match advanceBy (8 * len) src1 with
                | none => .inr ()
                | some src2 => .inl (.ok (len, src2, tape, stack, none))
          match step with
          | .inr () => none
          | .inl (.error e) => some (.error e)
          | .inl (.ok (data, src, tape, stack, listData)) =>
            parseLoop isNetworkNbt fullLen fuel src
              (tape ++ [TapeItem.new tag nameLen tagPos data isListItem listData])
              stack

/-- Models `Tape::parse`.  Each loop iteration either consumes at least
one source byte or (for a compound appearing as a list item) decrements
one pending list count that a later `End` byte must close, so a run
takes at most `2 * source.length + 1` iterations; the fuel is ample. -/
def Tape.parse (source : List Nat) (isNetworkNbt : Bool) :
    Option (Except NbtParseError (List TapeItem)) :=
  parseLoop isNetworkNbt source.length (2 * source.length + 4) source [] []

/-! ## NBT value surface (`nbt/src/value.rs`)

`NbtParser` (the parser type owning the tape, the source and the
caches) is referenced by `nbt/src/value.rs` but its defining module is
not part of the source tree; only the sibling `Nbt` implementation in
`nbt/src/lib.rs` and the specification describe it.  We model it as a
tape paired with the source.  NBT strings and names are kept as their
raw byte slices: the modified-UTF-8 decoding (`simd_cesu8`) is an
external collaborator, and on the ASCII names used below it is the
identity. -/
structure Nbt where
  tape : List TapeItem
  source : List Nat
deriving Repr

/-- Models `NbtValue`: scalars carry their decoded value (floats as raw
bit patterns), large kinds carry the tape index of their entry. -/
inductive NbtValue where
  | End
  | Byte (v : Int)
  | Short (v : Int)
  | Int (v : Int)
  | Long (v : Int)
  | Float (pat : Nat)
  | Double (pat : Nat)
  | ByteArray (tapePos : Nat)
  | String (tapePos : Nat)
  | List (tapePos : Nat)
  | Compound (tapePos : Nat)
  | IntArray (tapePos : Nat)
  | LongArray (tapePos : Nat)
deriving DecidableEq, Repr

/-- Modelled from the spec: `NbtParser::parse_at` is called from
`nbt/src/value.rs` but its body is not under the source tree; the spec
(§4.2) gives the successor rule (`tape_pos + 1` for scalars, arrays
and strings, `1 + payload_word` for Compound and List) and the sibling
`Nbt::parse_at` in `nbt/src/lib.rs` decodes scalar payload words the
same way.  Out-of-range tape access would be a Rust panic; it does not
occur on the embedded paths. -/
def Nbt.parseAt (nbt : Nbt) (tapePos : Nat) : NbtValue × Nat :=
  match nbt.tape[tapePos]? with
  | none => (.End, 0)
  | some it =>
    let value : NbtValue :=
      match it.tag with
      | .End => .End
      | .Byte => .Byte (toSigned 8 (it.data % 2 ^ 8))
      | .Short => .Short (toSigned 16 (it.data % 2 ^ 16))
      | .Int => .Int (toSigned 32 (it.data % 2 ^ 32))
      | .Long => .Long (toSigned 64 it.data)
      | .Float => .Float (it.data % 2 ^ 32)
      | .Double => .Double it.data
      | .ByteArray => .ByteArray tapePos
      | .String => .String tapePos
      | .List => .List tapePos
      | .Compound => .Compound tapePos
      | .IntArray => .IntArray tapePos
      | .LongArray => .LongArray tapePos
    let nextTapePos : Nat :=
      match it.tag with
      | .Compound | .List => 1 + it.data
      | .End => 0
      | _ => tapePos + 1
    (value, nextTapePos)

/-- Modelled from the spec: `NbtParser::get_name_at`, the name slice
`source[source_pos + 3 .. source_pos + 3 + name_len]`, as also written
in the sibling `Nbt::get_name` in `nbt/src/lib.rs`; the modified-UTF-8
decoding is kept as raw bytes. -/
def Nbt.getNameAt (nbt : Nbt) (tapePos : Nat) : List Nat :=
  match nbt.tape[tapePos]? with
  | none => []
  | some it => ((nbt.source.drop (it.sourcePos + 3)).take it.nameLen)

/-- `std::collections::HashMap::insert`: inserting an existing key
replaces its value. -/
def insertReplace (m : List (List Nat × NbtValue)) (k : List Nat) (v : NbtValue) :
    List (List Nat × NbtValue) :=
  match m with
  | [] => [(k, v)]
  | (k1, v1) :: rest =>
    if k1 = k then (k, v) :: rest else (k1, v1) :: insertReplace rest k v

/-- `HashMap::get` on the association-list model. -/
def alistGet (m : List (List Nat × NbtValue)) (k : List Nat) : Option NbtValue :=
  match m with
  | [] => none
  | (k1, v1) :: rest => if k1 = k then some v1 else alistGet rest k

/-- The iteration of `<NbtCompound as NbtRef>::parse`
(`nbt/src/value.rs`): starting at `self.0 + 1`, repeatedly `parse_at`,
inserting `name → value` into the map until an `End` value is met.
The fuel bounds the iteration count; the tape length suffices for
every tape this file evaluates it on. -/
def compoundParseLoop (nbt : Nbt) :
    Nat → Nat → List (List Nat × NbtValue) → List (List Nat × NbtValue)
  | 0, _, m => m
  | fuel + 1, tapePos, m =>
    let (value, nextTapePos) := nbt.parseAt tapePos
    match value with
    | .End => m
    | value => compoundParseLoop nbt fuel nextTapePos
        (insertReplace m (nbt.getNameAt tapePos) value)

/-- Models `<NbtCompound as NbtRef>::parse` (`nbt/src/value.rs`,
lines 201–241): materializes the name-to-value map of the compound at
tape index `self`. -/
def NbtCompound.parse (nbt : Nbt) (self : Nat) : List (List Nat × NbtValue) :=
  compoundParseLoop nbt (nbt.tape.length + 1) (self + 1) []

/-- Models `<NbtCompound as NbtMapRef>::get` (`nbt/src/value.rs`,
lines 243–252): `self.parse(nbt).get(name).copied()`. -/
def NbtCompound.get (nbt : Nbt) (self : Nat) (name : List Nat) : Option NbtValue :=
  alistGet (NbtCompound.parse nbt self) name

/-- Models `<NbtByteArray as NbtMapRef>::get` (`nbt/src/value.rs`,
lines 89–110): `source[payload_pos + index] as i8`, absent when
`index >= data`. -/
def NbtByteArray.get (nbt : Nbt) (self : Nat) (index : Nat) : Option Int :=
  match nbt.tape[self]? with
  | none => none
  | some it =>
    if it.data ≤ index then none
    else
      match nbt.source[it.getSourcePayloadPos + index]? with
      | none => none
      | some b => some (toSigned 8 b)

/-- Reads four consecutive bytes of `s` starting at `i`; `none` models
the out-of-range slice panic. -/
def sliceBE4 (s : List Nat) (i : Nat) : Option Nat :=
  match s[i]?, s[i+1]?, s[i+2]?, s[i+3]? with
  | some b0, some b1, some b2, some b3 =>
    some (b0 * 2 ^ 24 + b1 * 2 ^ 16 + b2 * 2 ^ 8 + b3)
  | _, _, _, _ => none

/-- Reads eight consecutive bytes of `s` starting at `i` (big-endian). -/
def sliceBE8 (s : List Nat) (i : Nat) : Option Nat :=
  match sliceBE4 s i, sliceBE4 s (i + 4) with
  | some hi, some lo => some (hi * 2 ^ 32 + lo)
  | _, _ => none

/-- Models `<NbtIntArray as NbtMapRef>::get` (`nbt/src/value.rs`,
lines 273–299): absent when `index >= data`, otherwise
`i32::from_be_bytes` of `source[start + index .. start + index + 4]`
where `start` is `get_source_payload_pos()`. -/
def NbtIntArray.get (nbt : Nbt) (self : Nat) (index : Nat) : Option Int :=
  match nbt.tape[self]? with
  | none => none
  | some it =>
    if it.data ≤ index then none
    else
      match sliceBE4 nbt.source (it.getSourcePayloadPos + index) with
      | none => none
      | some pat => some (toSigned 32 pat)

/-- Models `<NbtLongArray as NbtMapRef>::get` (`nbt/src/value.rs`,
lines 320–346). -/
def NbtLongArray.get (nbt : Nbt) (self : Nat) (index : Nat) : Option Int :=
  match nbt.tape[self]? with
  | none => none
  | some it =>
    if it.data ≤ index then none
    else
      match sliceBE8 nbt.source (it.getSourcePayloadPos + index) with
      | none => none
      | some pat => some (toSigned 64 pat)

/-- Builds an `Nbt` from a successful parse, mirroring `NbtParser`
construction over `Tape::parse`. -/
def nbtOfParsed (source : List Nat) (isNetworkNbt : Bool) : Option Nbt :=
  match Tape.parse source isNetworkNbt with
  | some (.ok tape) => some { tape, source }
  | _ => none

/-! ## Packet framing (`packet/src/lib.rs`) -/

/-- Models `PacketCheckOutcome` (`len` is the declared frame length,
already converted to `u16`; `packetId` is the `i32` bit pattern). -/
inductive PacketCheckOutcome where
  | okFrame (len : Nat) (packetId : Nat)
  | incomplete
deriving DecidableEq, Repr

/-- Models `check_packet` (`packet/src/lib.rs`, lines 89–106).  The
result also carries the unconsumed part of the buffer (the Rust cursor
position).  `none` models a panic: the `get_u8` underflow inside
`get_varint`, or the `len.try_into().unwrap()` into `u16` failing for
`len ≥ 2^16`. -/
def check_packet (buf : List Nat) :
    Option (Except GetVarIntError (PacketCheckOutcome × List Nat)) :=
  match try_get_varint_with_at_most 3 buf with
  | .error e => some (.error e)
  | .ok none => some (.ok (.incomplete, buf))
  | .ok (some (len, r)) =>
    if r.length < len then
      some (.ok (.incomplete, r))
    else
      match get_varint r with
      | none => none
      | some (.error e) => some (.error e)
      | some (.ok (packetId, r2)) =>
        if len < 2 ^ 16 then
          some (.ok (.okFrame len packetId, r2))
        else
          none

/-! ## Connection state machine (`server/src/connection.rs`)

The packet catalogue (`packet/src/server.rs`, `packet/src/client.rs`)
is embedded structurally; payload field types that never influence the
embedded control flow (strings, UUIDs, byte arrays) are kept abstract
as `String`, `Nat` and `List Nat`.  The status-response JSON payload
is fixed by the code except for a random sample UUID
(`Uuid::new_v4()`), which we do not model; no claim inspects it. -/

/-- Models `protocol::ConnectionState`. -/
inductive ConnectionState where
  | Handshaking | Status | Login | Configuration | Play
deriving DecidableEq, Repr

/-- Models `protocol::ClientInformation`. -/
structure ClientInformation where
  locale : String
  viewDistance : Nat
  chatMode : Nat
  chatColors : Bool
  displayedSkinParts : Nat
  mainHand : Nat
  enableTextFiltering : Bool
  allowServerListings : Bool
deriving DecidableEq, Repr

/-- Models `ServerHandshakingPacket`. -/
inductive ServerHandshakingPacket where
  | handshake (protocolVersion : Int) (serverAddress : String)
      (serverPort : Nat) (nextState : ConnectionState)
deriving DecidableEq, Repr

/-- Models `ServerStatusPacket`. -/
inductive ServerStatusPacket where
  | statusRequest
  | pingRequest (payload : Int)
deriving DecidableEq, Repr

/-- Models `ServerLoginPacket`. -/
inductive ServerLoginPacket where
  | loginStart (playerUsername : String) (playerUuid : Nat)
  | encryptionResponse (sharedSecret : List Nat) (verifyToken : List Nat)
  | loginPluginResponse (messageId : Int) (successful : Bool) (data : List Nat)
  | loginAcknowledged
deriving DecidableEq, Repr

/-- Models `ServerConfigurationPacket`. -/
inductive ServerConfigurationPacket where
  | clientInformation (info : ClientInformation)
  | pluginMessage (channelIdentifier : String) (data : List Nat)
deriving DecidableEq, Repr

/-- Models `ServerPlayPacket` (a single placeholder variant). -/
inductive ServerPlayPacket where
  | none1
deriving DecidableEq, Repr

/-- Models `ServerPacket`, the serverbound packet catalogue grouped by
connection state. -/
inductive ServerPacket where
  | handshaking (p : ServerHandshakingPacket)
  | status (p : ServerStatusPacket)
  | login (p : ServerLoginPacket)
  | configuration (p : ServerConfigurationPacket)
  | play (p : ServerPlayPacket)
deriving DecidableEq, Repr

/-- The group that `<ServerPacket as Decodable>::decode` dispatches on:
a packet of this group can only be decoded while the connection is in
the matching state. -/
def ServerPacket.group : ServerPacket → ConnectionState
  | .handshaking _ => .Handshaking
  | .status _ => .Status
  | .login _ => .Login
  | .configuration _ => .Configuration
  | .play _ => .Play

/-- The clientbound packets `process_packet` can emit, with their
deterministic payload fields. -/
inductive ClientPacket where
  | statusResponse
  | pongResponse (payload : Int)
  | loginSuccess (playerUuid : Nat) (playerUsername : String)
      (strictErrorHandling : Bool)
deriving DecidableEq, Repr

/-- Models `ProcessPacketError`; the encode/IO variants cannot arise in
the pure model. -/
inductive ProcessPacketError where
  | incompatibleProtocolVersion (v : Int)
deriving DecidableEq, Repr

/-- Models `TARGET_PROTOCOL_VERSION`. -/
def TARGET_PROTOCOL_VERSION : Int := 767

/-- Models the per-connection state of `Connection`: the inbound
buffer, the protocol phase, the status guard and the negotiated client
preferences (the transport itself is not modelled). -/
structure Connection where
  buffer : List Nat
  state : ConnectionState
  canRequestStatus : Bool
  clientInformation : Option ClientInformation
deriving DecidableEq, Repr

/-- Models `Connection::new`: a zeroed 4096-byte buffer, phase
`Handshaking`, status guard `false`, no client information. -/
def Connection.initial : Connection :=
  { buffer := List.replicate 4096 0
    state := .Handshaking
    canRequestStatus := false
    clientInformation := none }

/-- Models `Connection::process_packet` (`server/src/connection.rs`,
lines 130–241); `default_packet_handler` in
`server/src/packet_handler.rs` implements the same handshake and
status logic.  The result is the `Result`, the updated connection and
the packets sent; `none` models the `todo!()` panics. -/
def process_packet (conn : Connection) (packet : ServerPacket) :
    Option (Except ProcessPacketError Unit × Connection × List ClientPacket) :=
  match packet with
  | .handshaking (.handshake protocolVersion _ _ nextState) =>
    if protocolVersion ≠ TARGET_PROTOCOL_VERSION then
      some (.error (.incompatibleProtocolVersion protocolVersion), conn, [])
    else
      some (.ok (), { conn with state := nextState, canRequestStatus := true }, [])
  | .status .statusRequest =>
    if !conn.canRequestStatus then
      some (.ok (), conn, [])
    else
      some (.ok (), { conn with canRequestStatus := false }, [.statusResponse])
  | .status (.pingRequest payload) =>
    some (.ok (), conn, [.pongResponse payload])
  | .login (.loginStart playerUsername playerUuid) =>
    some (.ok (), conn, [.loginSuccess playerUuid playerUsername true])
  | .login .loginAcknowledged =>
    some (.ok (), { conn with state := .Configuration }, [])
  | .login (.encryptionResponse _ _) => none
  | .login (.loginPluginResponse _ _ _) => none
  | .configuration (.pluginMessage _ _) =>
    some (.ok (), conn, [])
  | .configuration (.clientInformation info) =>
    some (.ok (), { conn with clientInformation := some info }, [])
  | .play _ => none

/-- Runs a connection over a sequence of inbound packets, as the
read-and-process loop of `Connection::start_process` does: a packet
whose group does not match the current state cannot be decoded
(`InvalidPacketId`), which drops the connection; a handler error or
panic likewise ends processing. -/
def runConn : Connection → List ServerPacket → Connection × List ClientPacket
  | conn, [] => (conn, [])
  | conn, p :: rest =>
    if p.group = conn.state then
      match process_packet conn p with
      | none => (conn, [])
      | some (.error _, conn1, out) => (conn1, out)
      | some (.ok _, conn1, out) =>
        let next := runConn conn1 rest
        (next.1, out ++ next.2)
    else
      (conn, [])

/-- Counts the `StatusResponse` packets in an outbound sequence. -/
def countStatusResponses (l : List ClientPacket) : Nat :=
  l.countP fun p => match p with | .statusResponse => true | _ => false

/-- Models the errors `Connection::parse_packet` can return. -/
inductive ParsePacketError where
  | varint (e : GetVarIntError)
  | packetDecode
deriving DecidableEq, Repr

/-- Models `Connection::parse_packet` (`server/src/connection.rs`,
lines 109–128), with the schema-derived `ServerPacket::decode`
abstracted as a parameter: it receives the connection state, the
packet id and the `len` bytes handed over by `copy_to_bytes`, and may
fail (`Except.error`) or panic (`none`).  The function returns the
result and the updated connection; the buffer is advanced by the
cursor position (length prefix plus id) only after a successful
decode. -/
def parse_packet
    (decode : ConnectionState → Nat → List Nat → Option (Except Unit ServerPacket))
    (conn : Connection) :
    Option (Except ParsePacketError (Option ServerPacket)) × Connection :=
  match check_packet conn.buffer with
  | none => (none, conn)
  | some (.error e) => (some (.error (.varint e)), conn)
  | some (.ok (.incomplete, _)) => (some (.ok none), conn)
  | some (.ok (.okFrame len packetId, rest)) =>
    let fullLen := conn.buffer.length - rest.length
    if rest.length < len then
      (none, conn)  -- copy_to_bytes(len) would panic
    else
      match decode conn.state packetId (rest.take len) with
      | none => (none, conn)
      | some (.error _) => (some (.error .packetDecode), conn)
      | some (.ok p) =>
        (some (.ok (some p)), { conn with buffer := conn.buffer.drop fullLen })

/-- The tape consistency property of claim C1 (spec §8, invariant 1):
every `Compound` or `List` entry at index `i` has a payload word that
is a valid tape index `j > i` whose entry is an `End` whose payload
word is `i`. -/
def tapeInvariant (tape : List TapeItem) : Bool :=
  (List.range tape.length).all fun i =>
    match tape[i]? with
    | none => true
    | some it =>
      match it.tag with
      | .Compound | .List =>
        match tape[it.data]? with
        | none => false
        | some jt => decide (i < it.data) && (jt.tag == .End) && (jt.data == i)
      | _ => true

/-- Network-framed NBT: a root compound containing one list named `L`
with element tag `Byte` and declared length `0`, then the root `End`. -/
def nbtEmptyListBytes : List Nat :=
  [0x0A, 0x09, 0x00, 0x01, 0x4C, 0x01, 0x00, 0x00, 0x00, 0x00, 0x00]

/-- Network-framed NBT: a root compound with children `k → Int(1)` and
`k → Int(2)`, then the root `End`. -/
def nbtDuplicateKeyBytes : List Nat :=
  [0x0A, 3, 0, 1, 0x6B, 0, 0, 0, 1, 3, 0, 1, 0x6B, 0, 0, 0, 2, 0]

/-- Network-framed NBT: a root compound with one child `a → IntArray
[1, 2]`, then the root `End`. -/
def nbtIntArrayBytes : List Nat :=
  [0x0A, 0x0B, 0, 1, 0x61, 0, 0, 0, 2, 0, 0, 0, 1, 0, 0, 0, 2, 0]

/-- Is the result a `WrongStartingTag` error? -/
def isWrongStartingTagError (r : Option (Except NbtParseError (List TapeItem))) : Bool :=
  match r with
  | some (.error (.wrongStartingTag _ _)) => true
  | _ => false

/-- An upper bound on the status responses a connection can still
serve: one while the guard is raised, one while still in
`Handshaking` (a successful handshake raises the guard), none
otherwise.  The guard is raised only by a handshake, which can only
be decoded in `Handshaking`, and serving a response lowers it. -/
def statusPotential (conn : Connection) : Nat :=
  if conn.canRequestStatus then 1
  else if conn.state = .Handshaking then 1
  else 0

/-! ## Theorems -/

/-- C1: the claim asserts that after every successful `Tape::parse`
every `Compound`/`List` entry's payload word points at a matching
`End` entry further down the tape, explicitly including lists of
declared length zero or negative.  The code violates this: a list
whose declared length is not positive pushes no scope frame, so no
synthetic `End` is ever linked and its payload word stays `0`.  On
the 11-byte input `nbtEmptyListBytes` (a compound containing an empty
list) the parse succeeds, the entry at tape index 1 is that `List`
with payload word `0`, and the claimed invariant is false.  (In a
debug build the code even aborts: `ListData::new` asserts
`len > 0`.) -/
theorem tape_invariant_violated_on_empty_list :
    (Tape.parse nbtEmptyListBytes true).map (Except.map fun tape =>
      (tapeInvariant tape, tape.length,
        (tape.getD 1 default).tag, (tape.getD 1 default).data)) =
    some (.ok (false, 3, Tag.List, 0)) := by
  decide

/-- C2: the claim (and the doc comment on `NbtCompound::get`) says a
named lookup returns the first occurrence of a duplicated name, and
that reading `k` from `{ k → Int(1), k → Int(2) }` yields `1`.  The
code materializes the compound with `HashMap::insert`, which replaces
the value of an existing key, so the lookup returns the last
occurrence: on `nbtDuplicateKeyBytes` the lookup of `k` (byte `0x6B`)
yields `Int 2`, not `Int 1`. -/
theorem compound_duplicate_name_resolves_to_last :
    (nbtOfParsed nbtDuplicateKeyBytes true).map
        (fun nbt => NbtCompound.get nbt 0 [0x6B]) =
      some (some (.Int 2)) ∧
    (nbtOfParsed nbtDuplicateKeyBytes true).map
        (fun nbt => NbtCompound.get nbt 0 [0x6B]) ≠
      some (some (.Int 1)) := by
  constructor
  · decide
  · decide

/-- C3: the claim says `get(nbt, index)` on an `IntArray` is absent
exactly when `index` is at least the element count and otherwise
returns the element, read big-endian at
`payload_pos + index * element_size` with `element_size = 4`.  The
code reads 4 bytes at `payload_pos + index` — a stride of one — and
`payload_pos` itself points at the 4-byte length prefix rather than
the first element.  On `nbtIntArrayBytes` (array `[1, 2]`) index 1
yields `512` instead of the element `2` (index 0 yields `2`, bytes of
the length prefix; index 2 is absent as claimed). -/
theorem int_array_get_misreads_element :
    (nbtOfParsed nbtIntArrayBytes true).map (fun nbt =>
        (NbtIntArray.get nbt 1 0, NbtIntArray.get nbt 1 1, NbtIntArray.get nbt 1 2)) =
      some (some 2, some 512, none) ∧
    (nbtOfParsed nbtIntArrayBytes true).map (fun nbt => NbtIntArray.get nbt 1 1) ≠
      some (some 2) := by
  constructor
  · decide
  · decide

/-- C6 counterexample: the claim says every non-`0x0A` first byte —
explicitly including `13..=255` — makes `Tape::parse` fail with
`WrongStartingTag`.  But a first byte that is not a valid tag at all
fails earlier, in `Tag::try_from`, with `InvalidTag`: on the
one-byte input `[13]` the parse returns `InvalidTag(13, 0)` and no
`WrongStartingTag` error. -/
theorem wrong_starting_tag_counterexample :
    Tape.parse [13] false = some (.error (.invalidTag 13 0)) ∧
    isWrongStartingTagError (Tape.parse [13] false) = false := by
  constructor
  · decide
  · decide

/-- C5 counterexample: the claim says any frame whose length encoding
exceeds the 3-byte budget fails with `VarInt::TooBig`, so accepted
frames declare at most `2^21 - 1` payload bytes.  But
`get_varint_with_at_most(_, 3)` only fails when a fourth byte still
has its continuation bit: the 4-byte length encoding
`80 80 80 01` (value `2^21 = 2097152 > 2^21 - 1`) is read
successfully, and `check_packet` reports an incomplete frame instead
of an error. -/
theorem frame_length_budget_counterexample :
    try_get_varint_with_at_most 3 [0x80, 0x80, 0x80, 0x01] =
      .ok (some (2097152, [])) ∧
    check_packet [0x80, 0x80, 0x80, 0x01] = some (.ok (.incomplete, [])) ∧
    check_packet [0x80, 0x80, 0x80, 0x01] ≠ some (.error .tooBig) := by
  refine ⟨by decide, by decide, by decide⟩

/-- C9 counterexample: the claim says a wire bool decodes to `true`
for every nonzero byte.  `get_bool` tests `byte == 0x01`, so the
nonzero byte `2` decodes to `false`. -/
theorem bool_decode_counterexample :
    get_bool [2] = some (false, []) ∧ get_bool [2] ≠ some (true, []) := by
  refine ⟨by decide, by decide⟩

/-- C9 amended: a wire bool decodes to `true` exactly when the byte is
`0x01` (any other byte value, zero or not, decodes to `false`);
encoding writes `0x01` for `true` and `0x00` for `false`. -/
theorem bool_codec_amended :
    (∀ (b : Nat) (rest : List Nat),
      get_bool (b :: rest) = some (true, rest) ↔ b = 1) ∧
    put_bool true = [1] ∧ put_bool false = [0] := by
  refine ⟨fun b rest => ?_, rfl, rfl⟩
  constructor
  · intro h
    simp only [get_bool, getU8, Option.some.injEq, Prod.mk.injEq, beq_iff_eq] at h
    exact h.1
  · intro h
    subst h
    rfl

/-- Witness for the amended C9 theorem at the byte `1`. -/
theorem bool_codec_amended_witness :
    get_bool [1] = some (true, []) :=
  (bool_codec_amended.1 1 []).mpr rfl


/-- C7: a handshake whose protocol version differs from the compiled
target `767` is rejected with `IncompatibleProtocolVersion` carrying
that version, the connection is returned exactly as it was (in
particular the phase and the status guard are untouched), and nothing
is sent. -/
theorem handshake_version_mismatch_atomic
    (conn : Connection) (v : Int) (addr : String) (port : Nat)
    (next : ConnectionState) (h : v ≠ 767) :
    process_packet conn (.handshaking (.handshake v addr port next)) =
      some (.error (.incompatibleProtocolVersion v), conn, []) := by
  simp [process_packet, TARGET_PROTOCOL_VERSION, h]

/-- Witness for C7 at protocol version `766` on the initial connection:
the phase stays `Handshaking` and the guard stays `false`. -/
theorem handshake_version_mismatch_atomic_witness :
    process_packet Connection.initial
        (.handshaking (.handshake 766 "localhost" 25565 .Status)) =
      some (.error (.incompatibleProtocolVersion 766), Connection.initial, []) ∧
    Connection.initial.state = .Handshaking ∧
    Connection.initial.canRequestStatus = false :=
  ⟨handshake_version_mismatch_atomic Connection.initial 766 "localhost" 25565
      .Status (by decide), rfl, rfl⟩

/-- `countStatusResponses` is additive over concatenation (helper). -/
theorem countStatusResponses_append (a b : List ClientPacket) :
    countStatusResponses (a ++ b) = countStatusResponses a + countStatusResponses b := by
  simp [countStatusResponses, List.countP_append]

/-- Processing any packet sequence emits at most `statusPotential conn`
status responses (shared helper for the C8 theorem). -/
theorem runConn_status_le_potential (pkts : List ServerPacket) :
    ∀ conn : Connection,
      countStatusResponses (runConn conn pkts).2 ≤ statusPotential conn := by
  induction pkts with
  | nil =>
    intro conn
    simp [runConn, countStatusResponses]
  | cons p rest ih =>
    intro conn
    by_cases hg : p.group = conn.state
    case neg =>
      simp [runConn, hg, countStatusResponses]
    case pos =>
      cases p with
      | handshaking hp =>
        cases hp with
        | handshake v addr port next =>
          have hst : conn.state = .Handshaking := hg.symm
          by_cases hv : v = TARGET_PROTOCOL_VERSION
          · subst hv
            have h1 : process_packet conn
                (.handshaking (.handshake TARGET_PROTOCOL_VERSION addr port next)) =
                some (.ok (),
                  { conn with state := next, canRequestStatus := true }, []) := by
              simp [process_packet]
            have h2 := ih { conn with state := next, canRequestStatus := true }
            have h3 : statusPotential
                { conn with state := next, canRequestStatus := true } = 1 := by
              simp [statusPotential]
            have h4 : statusPotential conn = 1 := by
              simp [statusPotential, hst]
            simp only [runConn, ServerPacket.group, hst, h1, eq_self_iff_true,
              if_true, List.nil_append]
            omega
          · have h1 : process_packet conn
                (.handshaking (.handshake v addr port next)) =
                some (.error (.incompatibleProtocolVersion v), conn, []) := by
              simp [process_packet, hv]
            simp only [runConn, ServerPacket.group, hst, h1, eq_self_iff_true,
              if_true]
            simp [countStatusResponses]
      | status sp =>
        have hst : conn.state = .Status := hg.symm
        cases sp with
        | statusRequest =>
          by_cases hc : conn.canRequestStatus
          · have h1 : process_packet conn (.status .statusRequest) =
                some (.ok (), { conn with canRequestStatus := false },
                  [.statusResponse]) := by
              simp [process_packet, hc]
            have h2 := ih { conn with canRequestStatus := false }
            have h3 : statusPotential { conn with canRequestStatus := false } = 0 := by
              simp [statusPotential, hst]
            have h4 : statusPotential conn = 1 := by
              simp [statusPotential, hc]
            have h5 : countStatusResponses [ClientPacket.statusResponse] = 1 := rfl
            simp only [hst] at h2 h3
            simp only [runConn, ServerPacket.group, hst, h1, eq_self_iff_true,
              if_true, countStatusResponses_append, h5]
            omega
          · have h1 : process_packet conn (.status .statusRequest) =
                some (.ok (), conn, []) := by
              simp [process_packet, hc]
            have h2 := ih conn
            simp only [runConn, ServerPacket.group, hst, h1, eq_self_iff_true,
              if_true, List.nil_append]
            omega
        | pingRequest payload =>
          have h1 : process_packet conn (.status (.pingRequest payload)) =
              some (.ok (), conn, [.pongResponse payload]) := by
            simp [process_packet]
          have h2 := ih conn
          have h5 : countStatusResponses [ClientPacket.pongResponse payload] = 0 := rfl
          simp only [runConn, ServerPacket.group, hst, h1, eq_self_iff_true,
            if_true, countStatusResponses_append, h5]
          omega
      | login lp =>
        have hst : conn.state = .Login := hg.symm
        cases lp with
        | loginStart name uuid =>
          have h1 : process_packet conn (.login (.loginStart name uuid)) =
              some (.ok (), conn, [.loginSuccess uuid name true]) := by
            simp [process_packet]
          have h2 := ih conn
          have h5 : countStatusResponses [ClientPacket.loginSuccess uuid name true] = 0 :=
            rfl
          simp only [runConn, ServerPacket.group, hst, h1, eq_self_iff_true,
            if_true, countStatusResponses_append, h5]
          omega
        | loginAcknowledged =>
          have h1 : process_packet conn (.login .loginAcknowledged) =
              some (.ok (), { conn with state := .Configuration }, []) := by
            simp [process_packet]
          have h2 := ih { conn with state := .Configuration }
          have h3 : statusPotential { conn with state := .Configuration } ≤
              statusPotential conn := by
            by_cases hc : conn.canRequestStatus <;> simp [statusPotential, hc]
          simp only [runConn, ServerPacket.group, hst, h1, eq_self_iff_true,
            if_true, List.nil_append]
          omega
        | encryptionResponse s t =>
          have h1 : process_packet conn (.login (.encryptionResponse s t)) = none := by
            simp [process_packet]
          simp only [runConn, ServerPacket.group, hst, h1, eq_self_iff_true, if_true]
          simp [countStatusResponses]
        | loginPluginResponse i s d =>
          have h1 : process_packet conn
              (.login (.loginPluginResponse i s d)) = none := by
            simp [process_packet]
          simp only [runConn, ServerPacket.group, hst, h1, eq_self_iff_true, if_true]
          simp [countStatusResponses]
      | configuration cp =>
        have hst : conn.state = .Configuration := hg.symm
        cases cp with
        | clientInformation info =>
          have h1 : process_packet conn (.configuration (.clientInformation info)) =
              some (.ok (), { conn with clientInformation := some info }, []) := by
            simp [process_packet]
          have h2 := ih { conn with clientInformation := some info }
          have h3 : statusPotential { conn with clientInformation := some info } =
              statusPotential conn := by
            simp [statusPotential]
          simp only [hst] at h2 h3
          simp only [runConn, ServerPacket.group, hst, h1, eq_self_iff_true,
            if_true, List.nil_append]
          omega
        | pluginMessage ch d =>
          have h1 : process_packet conn (.configuration (.pluginMessage ch d)) =
              some (.ok (), conn, []) := by
            simp [process_packet]
          have h2 := ih conn
          simp only [runConn, ServerPacket.group, hst, h1, eq_self_iff_true,
            if_true, List.nil_append]
          omega
      | play pp =>
        have hst : conn.state = .Play := hg.symm
        have h1 : process_packet conn (.play pp) = none := by
          simp [process_packet]
        simp only [runConn, ServerPacket.group, hst, h1, eq_self_iff_true, if_true]
        simp [countStatusResponses]

/-- C8: starting from the initial connection state (phase
`Handshaking`, status guard down), processing any sequence of inbound
packets through the decode-then-handle pipeline sends at most one
`StatusResponse`; requests after the first served response are
ignored without a response. -/
theorem status_response_at_most_once (pkts : List ServerPacket) :
    countStatusResponses (runConn Connection.initial pkts).2 ≤ 1 := by
  have h := runConn_status_le_potential pkts Connection.initial
  have hpot : statusPotential Connection.initial = 1 := rfl
  omega

/-- C10: whenever the buffered bytes do not yet contain one complete
frame — the length prefix is still incomplete (`try_get_varint` runs
out of buffer), or fewer bytes than the declared frame length are
buffered — `parse_packet` returns `Ok(None)` without error and leaves
the connection untouched.  Moreover, for every buffer content and
every decoder, `parse_packet` never changes the phase, the status
guard or the client preferences, and it advances the inbound buffer
only when it returns a successfully decoded packet. -/
theorem parse_packet_incomplete_frame :
    (∀ (decode : ConnectionState → Nat → List Nat → Option (Except Unit ServerPacket))
        (conn : Connection),
      (try_get_varint_with_at_most 3 conn.buffer = .ok none ∨
        (∃ len rm, try_get_varint_with_at_most 3 conn.buffer = .ok (some (len, rm)) ∧
          rm.length < len)) →
      parse_packet decode conn = (some (.ok none), conn)) ∧
    (∀ (decode : ConnectionState → Nat → List Nat → Option (Except Unit ServerPacket))
        (conn : Connection),
      ((parse_packet decode conn).2.state = conn.state ∧
        (parse_packet decode conn).2.canRequestStatus = conn.canRequestStatus ∧
        (parse_packet decode conn).2.clientInformation = conn.clientInformation) ∧
      ((parse_packet decode conn).2.buffer = conn.buffer ∨
        ∃ p, (parse_packet decode conn).1 = some (.ok (some p)))) := by
  constructor
  · intro decode conn h
    rcases h with h | ⟨len, rm, h, hlen⟩
    · simp [parse_packet, check_packet, h]
    · simp [parse_packet, check_packet, h, hlen]
  · intro decode conn
    cases hcp : check_packet conn.buffer with
    | none =>
      simp [parse_packet, hcp]
    | some exr =>
      cases exr with
      | error e =>
        simp [parse_packet, hcp]
      | ok pr =>
        obtain ⟨outcome, r⟩ := pr
        cases outcome with
        | incomplete =>
          simp [parse_packet, hcp]
        | okFrame len pid =>
          by_cases hl : r.length < len
          · simp [parse_packet, hcp, hl]
          · cases hd : decode conn.state pid (r.take len) with
            | none =>
              simp [parse_packet, hcp, hl, hd]
            | some res =>
              cases res with
              | error e =>
                simp [parse_packet, hcp, hl, hd]
              | ok p =>
                refine ⟨⟨?_, ?_, ?_⟩, Or.inr ⟨p, ?_⟩⟩ <;>
                  simp [parse_packet, hcp, hl, hd]

/-- Witness for C10: a buffer holding only the single continuation
byte `0x80` (an incomplete length prefix) parses to `Ok(None)` with
the connection unchanged. -/
theorem parse_packet_incomplete_frame_witness :
    parse_packet (fun _ _ _ => none)
        { buffer := [0x80], state := .Handshaking,
          canRequestStatus := false, clientInformation := none } =
      (some (.ok none),
        { buffer := [0x80], state := .Handshaking,
          canRequestStatus := false, clientInformation := none }) :=
  parse_packet_incomplete_frame.1 (fun _ _ _ => none)
    { buffer := [0x80], state := .Handshaking,
      canRequestStatus := false, clientInformation := none }
    (Or.inl (by decide))

/-- C6 amended: a first byte that is not `0x0A` never parses, and the
failure mode is fully determined.  A first byte `≥ 13` is not a valid
tag and fails with `InvalidTag(value, 0)` (from `Tag::try_from`,
before the starting-tag check is reached).  The first byte `0` (`End`)
reads no name and fails with `WrongStartingTag(End, Compound)` in both
framings.  A first byte in `1..=12` other than `0x0A` fails with
`WrongStartingTag(tag, Compound)` in network framing (the root of a
network-framed document carries no name); in file framing it fails
with `WrongStartingTag(tag, Compound)` when the buffer holds the two
name-length bytes and the name they declare, and panics (modelled
`none`) on the name-length or name read otherwise. -/
theorem non_compound_first_byte_fails (b : Nat) (rest : List Nat) (net : Bool)
    (hb : b < 256) (hne : b ≠ 10) :
    (13 ≤ b → Tape.parse (b :: rest) net = some (.error (.invalidTag b 0))) ∧
    (b = 0 → Tape.parse (b :: rest) net =
      some (.error (.wrongStartingTag .End .Compound))) ∧
    (1 ≤ b → b < 13 → net = true →
      Tape.parse (b :: rest) net =
        some (.error (.wrongStartingTag (Tag.fromU8 b) .Compound))) ∧
    (1 ≤ b → b < 13 → net = false →
      (∀ x y r2, rest = x :: y :: r2 → x * 256 + y ≤ r2.length →
        Tape.parse (b :: rest) net =
          some (.error (.wrongStartingTag (Tag.fromU8 b) .Compound))) ∧
      ((∀ x y r2, rest = x :: y :: r2 → r2.length < x * 256 + y) →
        Tape.parse (b :: rest) net = none)) ∧
    (∀ tape, Tape.parse (b :: rest) net ≠ some (.ok tape)) := by
  have main13 : 13 ≤ b → Tape.parse (b :: rest) net = some (.error (.invalidTag b 0)) := by
    intro h13
    simp [Tape.parse, parseLoop, Tag.tryFromU8, getU8, Nat.not_lt.mpr h13]
  have main0 : b = 0 → Tape.parse (b :: rest) net =
      some (.error (.wrongStartingTag .End .Compound)) := by
    rintro rfl
    cases net <;>
      simp [Tape.parse, parseLoop, Tag.tryFromU8, getU8, getU16, advanceBy,
        Tag.fromU8]
  have mainNet : 1 ≤ b → b < 13 → net = true →
      Tape.parse (b :: rest) net =
        some (.error (.wrongStartingTag (Tag.fromU8 b) .Compound)) := by
    intro h1 h13 hnet
    subst hnet
    interval_cases b <;>
      first
      | exact absurd rfl hne
      | simp [Tape.parse, parseLoop, Tag.tryFromU8, getU8, getU16, advanceBy,
          Tag.fromU8]
  have mainFile : 1 ≤ b → b < 13 → net = false →
      (∀ x y r2, rest = x :: y :: r2 → x * 256 + y ≤ r2.length →
        Tape.parse (b :: rest) net =
          some (.error (.wrongStartingTag (Tag.fromU8 b) .Compound))) ∧
      ((∀ x y r2, rest = x :: y :: r2 → r2.length < x * 256 + y) →
        Tape.parse (b :: rest) net = none) := by
    intro h1 h13 hnet
    subst hnet
    constructor
    · rintro x y r2 rfl hadv
      interval_cases b <;>
        first
        | exact absurd rfl hne
        | simp [Tape.parse, parseLoop, Tag.tryFromU8, getU8, getU16, advanceBy,
            Tag.fromU8, hadv]
    · intro hshort
      rcases rest with _ | ⟨x, r1⟩
      · interval_cases b <;>
          first
          | exact absurd rfl hne
          | simp [Tape.parse, parseLoop, Tag.tryFromU8, getU8, getU16, advanceBy,
              Tag.fromU8]
      · rcases r1 with _ | ⟨y, r2⟩
        · interval_cases b <;>
            first
            | exact absurd rfl hne
            | simp [Tape.parse, parseLoop, Tag.tryFromU8, getU8, getU16, advanceBy,
                Tag.fromU8]
        · have hadv : ¬ (x * 256 + y ≤ r2.length) := by
            have := hshort x y r2 rfl
            omega
          interval_cases b <;>
            first
            | exact absurd rfl hne
            | simp [Tape.parse, parseLoop, Tag.tryFromU8, getU8, getU16, advanceBy,
                Tag.fromU8, hadv]
  refine ⟨main13, main0, mainNet, mainFile, ?_⟩
  intro tape hok
  by_cases h13 : 13 ≤ b
  · rw [main13 h13] at hok
    simp at hok
  · by_cases h0 : b = 0
    · rw [main0 h0] at hok
      simp at hok
    · cases net with
      | true =>
        rw [mainNet (by omega) (by omega) rfl] at hok
        simp at hok
      | false =>
        rcases mainFile (by omega) (by omega) rfl with ⟨hfit, hpanic⟩
        by_cases hex : ∃ x y r2, rest = x :: y :: r2 ∧ x * 256 + y ≤ r2.length
        · obtain ⟨x, y, r2, hr, hle⟩ := hex
          rw [hfit x y r2 hr hle] at hok
          simp at hok
        · push_neg at hex
          have hund : ∀ x y r2, rest = x :: y :: r2 → r2.length < x * 256 + y := by
            intro x y r2 hr
            have := hex x y r2 hr
            omega
          rw [hpanic hund] at hok
          simp at hok

/-- Witness for the amended C6 theorem: the invalid tag byte `13`
fails with `InvalidTag`; the `List` first byte `9` followed by an
in-bounds zero name length fails with `WrongStartingTag(List,
Compound)`; the `Int` first byte `3` with nothing after it panics on
the name-length read; the `End` first byte fails with
`WrongStartingTag(End, Compound)` in network framing. -/
theorem non_compound_first_byte_fails_witness :
    Tape.parse [13] false = some (.error (.invalidTag 13 0)) ∧
    Tape.parse [9, 0, 0] false =
      some (.error (.wrongStartingTag .List .Compound)) ∧
    Tape.parse [3] false = none ∧
    Tape.parse [0] true = some (.error (.wrongStartingTag .End .Compound)) :=
  ⟨(non_compound_first_byte_fails 13 [] false (by decide) (by decide)).1
      (by decide),
   ((non_compound_first_byte_fails 9 [0, 0] false (by decide)
        (by decide)).2.2.2.1 (by decide) (by decide) rfl).1 0 0 [] rfl
      (by decide),
   ((non_compound_first_byte_fails 3 [] false (by decide)
        (by decide)).2.2.2.1 (by decide) (by decide) rfl).2
      (fun x y r2 h => by simp at h),
   (non_compound_first_byte_fails 0 [] true (by decide) (by decide)).2.1 rfl⟩

/-- Bit ranges that cannot overlap make bitwise-or an addition
(shared helper for the varint proofs). -/
theorem lor_shiftLeft_eq_add {n : Nat} (a b : Nat) (h : a < 2 ^ n) :
    a ||| b <<< n = a + b * 2 ^ n := by
  apply Nat.eq_of_testBit_eq
  intro i
  rcases Nat.lt_or_ge i n with hi | hi
  · have h1 : ¬ i ≥ n := by omega
    have hd : (decide (i ≥ n)) = false := decide_eq_false h1
    rw [Nat.testBit_lor, Nat.testBit_shiftLeft, hd, Bool.false_and,
      Bool.or_false]
    have hpow : (2 : Nat) ^ n = 2 ^ (n - i - 1) * 2 * 2 ^ i := by
      have hn : n = (n - i - 1) + 1 + i := by omega
      calc (2 : Nat) ^ n = 2 ^ ((n - i - 1) + 1 + i) := by rw [← hn]
        _ = 2 ^ ((n - i - 1) + 1) * 2 ^ i := Nat.pow_add 2 _ i
        _ = 2 ^ (n - i - 1) * 2 * 2 ^ i := by rw [Nat.pow_succ]
    conv_lhs => rw [Nat.testBit_to_div_mod]
    conv_rhs => rw [Nat.testBit_to_div_mod]
    rw [hpow, ← Nat.mul_assoc,
      Nat.add_mul_div_right a _ (Nat.two_pow_pos i), ← Nat.mul_assoc,
      Nat.add_mul_mod_self_right]
  · rw [Nat.testBit_lor, Nat.testBit_shiftLeft]
    have ha : a.testBit i = false :=
      Nat.testBit_lt_two_pow
        (lt_of_lt_of_le h (Nat.pow_le_pow_right (by decide) hi))
    have hd : (decide (i ≥ n)) = true := decide_eq_true hi
    simp only [ha, Bool.false_or, hd, Bool.true_and]
    rw [Nat.testBit_to_div_mod, Nat.testBit_to_div_mod]
    have h1 : (a + b * 2 ^ n) / 2 ^ i = b / 2 ^ (i - n) := by
      have hpow : (2 : Nat) ^ i = 2 ^ n * 2 ^ (i - n) := by
        rw [← Nat.pow_add]
        congr 1
        omega
      rw [hpow, ← Nat.div_div_eq_div_mul,
        Nat.add_mul_div_right a b (Nat.two_pow_pos n),
        Nat.div_eq_of_lt h, Nat.zero_add]
    rw [h1]

/-- The mask `!0x7F` on an `i32` keeps exactly bits `7..=31`. -/
theorem and_mask_hi_eq (u : Nat) :
    u &&& 0xFFFFFF80 = ((u >>> 7) % 2 ^ 25) <<< 7 := by
  have hmask : (0xFFFFFF80 : Nat) = (2 ^ 25 - 1) <<< 7 := by decide
  rw [hmask]
  apply Nat.eq_of_testBit_eq
  intro i
  rw [Nat.testBit_land, Nat.testBit_shiftLeft, Nat.testBit_shiftLeft]
  rcases Nat.lt_or_ge i 7 with hi | hi
  · have h1 : ¬ i ≥ 7 := by omega
    simp [h1]
  · have hd : (decide (i ≥ 7)) = true := decide_eq_true hi
    simp only [hd, Bool.true_and]
    rw [Nat.testBit_mod_two_pow, Nat.testBit_shiftRight,
      Nat.testBit_two_pow_sub_one]
    have h7 : 7 + (i - 7) = i := by omega
    rw [h7]
    exact Bool.and_comm _ _

/-- For a 32-bit pattern, the `put_varint` loop guard
`u & 0xFFFFFF80 == 0` says exactly `u < 128`. -/
theorem and_mask_hi_zero_iff (u : Nat) (h32 : u < 2 ^ 32) :
    u &&& 0xFFFFFF80 = 0 ↔ u < 128 := by
  rw [and_mask_hi_eq]
  have hlt : u >>> 7 < 2 ^ 25 := by
    rw [Nat.shiftRight_eq_div_pow]
    apply Nat.div_lt_of_lt_mul
    calc u < 2 ^ 32 := h32
      _ = 2 ^ 7 * 2 ^ 25 := by norm_num
  rw [Nat.mod_eq_of_lt hlt, Nat.shiftLeft_eq, Nat.shiftRight_eq_div_pow]
  have h7 : (2 : Nat) ^ 7 = 128 := by norm_num
  rw [h7]
  constructor
  · intro h0
    have hz : u / 128 = 0 := by
      rcases Nat.mul_eq_zero.mp h0 with h | h
      · exact h
      · norm_num at h
    omega
  · intro h128
    have hz : u / 128 = 0 := Nat.div_eq_of_lt h128
    simp [hz]

theorem and_127_eq_mod (u : Nat) : u &&& 127 = u % 128 := by
  have h : (127 : Nat) = 2 ^ 7 - 1 := by norm_num
  rw [h, Nat.and_pow_two_sub_one_eq_mod]

theorem and_255_eq_mod (u : Nat) : u &&& 255 = u % 256 := by
  have h : (255 : Nat) = 2 ^ 8 - 1 := by norm_num
  rw [h, Nat.and_pow_two_sub_one_eq_mod]

/-- Decoding an encoded varint: the accumulator invariant of the
`get_varint` loop over the bytes `put_varint` emits. -/
theorem getVarintLoop_put_varint (rest : List Nat) :
    ∀ u pos acc, u < 2 ^ (32 - pos) → acc < 2 ^ pos → pos ≤ 31 →
      getVarintLoop 4 (put_varint u ++ rest) acc pos =
        some (.ok (acc + u * 2 ^ pos, rest)) := by
  intro u
  induction u using Nat.strong_induction_on with
  | _ u ih =>
    intro pos acc hu hacc hpos
    have h32 : u < 2 ^ 32 :=
      lt_of_lt_of_le hu (Nat.pow_le_pow_right (by decide) (by omega))
    rw [put_varint]
    by_cases hterm : u &&& 0xFFFFFF80 = 0
    · rw [dif_pos hterm]
      have hu128 : u < 128 := (and_mask_hi_zero_iff u h32).mp hterm
      have hb255 : u &&& 255 = u := by
        rw [and_255_eq_mod, Nat.mod_eq_of_lt (by omega)]
      have hb127 : u &&& 127 = u := by
        rw [and_127_eq_mod, Nat.mod_eq_of_lt (by omega)]
      have hcont : u &&& 128 = 0 := by
        have h7 : (128 : Nat) = 2 ^ 7 := by norm_num
        rw [h7, Nat.and_two_pow,
          Nat.testBit_lt_two_pow (show u < 2 ^ 7 by omega)]
        simp
      have hshift : u <<< pos % 2 ^ 32 = u <<< pos := by
        apply Nat.mod_eq_of_lt
        have h1 : u <<< pos < 2 ^ (32 - pos + pos) := Nat.shiftLeft_lt hu
        have h2 : 32 - pos + pos = 32 := by omega
        rw [h2] at h1
        exact h1
      simp only [List.cons_append, List.nil_append, getVarintLoop, hb255, hb127,
        hcont, hshift]
      rw [lor_shiftLeft_eq_add acc u hacc]
      simp [Nat.shiftLeft_eq]
    · rw [dif_neg hterm]
      have hu128 : 128 ≤ u := by
        by_contra hlt
        exact hterm ((and_mask_hi_zero_iff u h32).mpr (by omega))
      have hpos25 : pos < 25 := by
        by_contra hge
        have hle : (2 : Nat) ^ (32 - pos) ≤ 2 ^ 7 :=
          Nat.pow_le_pow_right (by decide) (by omega)
        have h7 : (2 : Nat) ^ 7 = 128 := by norm_num
        omega
      have hbyte : (u &&& 255) &&& 127 = u &&& 127 := by
        have h1 : (255 : Nat) &&& 127 = 127 := by decide
        rw [Nat.land_assoc, h1]
      have hx : u &&& 127 < 128 := by
        rw [and_127_eq_mod]
        exact Nat.mod_lt _ (by decide)
      have hBsum : (u &&& 127) ||| 128 = (u &&& 127) + 128 := by
        have h1 := lor_shiftLeft_eq_add (n := 7) (u &&& 127) 1 (by
          have h7 : (2 : Nat) ^ 7 = 128 := by norm_num
          omega)
        simpa using h1
      have hBbit : ((u &&& 127) ||| 128).testBit 7 = true := by
        rw [Nat.testBit_lor]
        have h1 : (128 : Nat).testBit 7 = true := by decide
        simp [h1]
      have hBcont : ((u &&& 127) ||| 128) &&& 128 = 128 := by
        have h1 := Nat.and_two_pow ((u &&& 127) ||| 128) 7
        rw [hBbit] at h1
        norm_num at h1
        exact h1
      have hB127 : ((u &&& 127) ||| 128) &&& 127 = u &&& 127 := by
        rw [and_127_eq_mod, hBsum, Nat.add_mod_right,
          Nat.mod_eq_of_lt hx]
      have hchunk : (u &&& 127) <<< pos % 2 ^ 32 = (u &&& 127) <<< pos := by
        apply Nat.mod_eq_of_lt
        have h1 : (u &&& 127) <<< pos < 2 ^ (7 + pos) := Nat.shiftLeft_lt hx
        exact lt_of_lt_of_le h1 (Nat.pow_le_pow_right (by decide) (by omega))
      have hacc1 : acc ||| (u &&& 127) <<< pos = acc + (u &&& 127) * 2 ^ pos :=
        lor_shiftLeft_eq_add acc (u &&& 127) hacc
      simp only [List.cons_append, getVarintLoop, hbyte, hBcont, hB127, hchunk,
        hacc1, List.append_eq]
      rw [if_neg (by decide), if_neg (by omega)]
      have hdivlt : u >>> 7 < u := by
        rw [Nat.shiftRight_eq_div_pow]
        exact Nat.div_lt_self (by omega) (by norm_num)
      have hu1 : u >>> 7 < 2 ^ (32 - (pos + 7)) := by
        rw [Nat.shiftRight_eq_div_pow]
        apply Nat.div_lt_of_lt_mul
        have hp : (2 : Nat) ^ 7 * 2 ^ (32 - (pos + 7)) = 2 ^ (32 - pos) := by
          rw [← Nat.pow_add]
          congr 1
          omega
        rw [hp]
        exact hu
      have hacc2 : acc + (u &&& 127) * 2 ^ pos < 2 ^ (pos + 7) := by
        have h1 : acc + (u &&& 127) * 2 ^ pos < 2 ^ pos + (u &&& 127) * 2 ^ pos :=
          Nat.add_lt_add_right hacc _
        have h2 : (u &&& 127) * 2 ^ pos ≤ 127 * 2 ^ pos :=
          Nat.mul_le_mul_right _ (by omega)
        have h3 : (2 : Nat) ^ pos + 127 * 2 ^ pos = 2 ^ (pos + 7) := by
          rw [Nat.pow_add]
          ring
        omega
      have hrec := ih (u >>> 7) hdivlt (pos + 7) (acc + (u &&& 127) * 2 ^ pos)
        hu1 hacc2 (by omega)
      have hval : acc + (u &&& 127) * 2 ^ pos + u >>> 7 * 2 ^ (pos + 7) =
          acc + u * 2 ^ pos := by
        rw [Nat.shiftRight_eq_div_pow, and_127_eq_mod]
        have hmd : u % 128 + 128 * (u / 128) = u := Nat.mod_add_div u 128
        have hp7 : (2 : Nat) ^ 7 = 128 := by norm_num
        have hpow7 : (2 : Nat) ^ (pos + 7) = 2 ^ pos * 128 := by
          rw [Nat.pow_add]
        rw [hp7, hpow7]
        calc acc + u % 128 * 2 ^ pos + u / 128 * (2 ^ pos * 128)
            = acc + (u % 128 + 128 * (u / 128)) * 2 ^ pos := by ring
          _ = acc + u * 2 ^ pos := by rw [hmd]
      rw [hrec, hval]

/-- `toSigned` inverts `toPat32` on the `i32` range. -/
theorem toSigned_toPat32 (v : Int) (hlo : -2 ^ 31 ≤ v) (hhi : v < 2 ^ 31) :
    toSigned 32 (toPat32 v) = v := by
  unfold toSigned toPat32
  split_ifs with h <;> push_cast <;> omega

theorem toPat32_lt (v : Int) : toPat32 v < 2 ^ 32 := by
  unfold toPat32
  omega

/-- The `get_varint` loop accepts any varint encoding (continuation
bytes followed by a terminal byte) that stays within the budget check. -/
theorem getVarintLoop_accepts (budget : Nat) (rest : List Nat) (t : Nat)
    (ht : t &&& 128 = 0) :
    ∀ cs acc pos, (∀ c ∈ cs, c &&& 128 ≠ 0) → pos + 7 * cs.length < budget * 8 →
      ∃ v, getVarintLoop budget (cs ++ t :: rest) acc pos =
        some (.ok (v, rest)) := by
  intro cs
  induction cs with
  | nil =>
    intro acc pos hcs hbud
    refine ⟨acc ||| ((t &&& 127) <<< pos % 2 ^ 32), ?_⟩
    simp [getVarintLoop, ht]
  | cons c cs ih =>
    intro acc pos hcs hbud
    have hc : c &&& 128 ≠ 0 := hcs c (by simp)
    have hcb : (c &&& 128 == 0) = false := by simpa using hc
    simp only [List.cons_append, getVarintLoop, hcb, Bool.false_eq_true,
      if_false]
    rw [if_neg (by simp at hbud ⊢; omega)]
    exact ih _ _ (fun x hx => hcs x (by simp [hx])) (by simp at hbud ⊢; omega)

/-- The `try_get_varint` loop accepts any in-budget varint encoding. -/
theorem tryGetVarintLoop_accepts (budget : Nat) (rest : List Nat) (t : Nat)
    (ht : t &&& 128 = 0) :
    ∀ cs acc pos, (∀ c ∈ cs, c &&& 128 ≠ 0) → pos + 7 * cs.length < budget * 8 →
      ∃ v, tryGetVarintLoop budget (cs ++ t :: rest) acc pos =
        .ok (some (v, rest)) := by
  intro cs
  induction cs with
  | nil =>
    intro acc pos hcs hbud
    refine ⟨acc ||| ((t &&& 127) <<< pos % 2 ^ 32), ?_⟩
    simp [tryGetVarintLoop, ht]
  | cons c cs ih =>
    intro acc pos hcs hbud
    have hc : c &&& 128 ≠ 0 := hcs c (by simp)
    have hcb : (c &&& 128 == 0) = false := by simpa using hc
    simp only [List.cons_append, tryGetVarintLoop, hcb, Bool.false_eq_true,
      if_false]
    rw [if_neg (by simp at hbud ⊢; omega)]
    exact ih _ _ (fun x hx => hcs x (by simp [hx])) (by simp at hbud ⊢; omega)

/-- C4: encoding any `i32` with `put_varint` and decoding the bytes
with `get_varint` (budget parameter 4) reproduces the value, and the
ten canonical values encode to exactly the listed byte sequences and
decode back to themselves with budget parameter 4. -/
theorem varint_roundtrip (v : Int) (hlo : -2 ^ 31 ≤ v) (hhi : v < 2 ^ 31) :
    (get_varint (put_varint_i32 v) = some (.ok (toPat32 v, [])) ∧
      toSigned 32 (toPat32 v) = v) ∧
    (put_varint_i32 0 = [0x00] ∧
     put_varint_i32 1 = [0x01] ∧
     put_varint_i32 127 = [0x7F] ∧
     put_varint_i32 128 = [0x80, 0x01] ∧
     put_varint_i32 255 = [0xFF, 0x01] ∧
     put_varint_i32 25565 = [0xDD, 0xC7, 0x01] ∧
     put_varint_i32 2097151 = [0xFF, 0xFF, 0x7F] ∧
     put_varint_i32 2147483647 = [0xFF, 0xFF, 0xFF, 0xFF, 0x07] ∧
     put_varint_i32 (-1) = [0xFF, 0xFF, 0xFF, 0xFF, 0x0F] ∧
     put_varint_i32 (-2147483648) = [0x80, 0x80, 0x80, 0x80, 0x08]) ∧
    (get_varint_with_at_most 4 [0x00] = some (.ok (toPat32 0, [])) ∧
     get_varint_with_at_most 4 [0x01] = some (.ok (toPat32 1, [])) ∧
     get_varint_with_at_most 4 [0x7F] = some (.ok (toPat32 127, [])) ∧
     get_varint_with_at_most 4 [0x80, 0x01] = some (.ok (toPat32 128, [])) ∧
     get_varint_with_at_most 4 [0xFF, 0x01] = some (.ok (toPat32 255, [])) ∧
     get_varint_with_at_most 4 [0xDD, 0xC7, 0x01] =
       some (.ok (toPat32 25565, [])) ∧
     get_varint_with_at_most 4 [0xFF, 0xFF, 0x7F] =
       some (.ok (toPat32 2097151, [])) ∧
     get_varint_with_at_most 4 [0xFF, 0xFF, 0xFF, 0xFF, 0x07] =
       some (.ok (toPat32 2147483647, [])) ∧
     get_varint_with_at_most 4 [0xFF, 0xFF, 0xFF, 0xFF, 0x0F] =
       some (.ok (toPat32 (-1), [])) ∧
     get_varint_with_at_most 4 [0x80, 0x80, 0x80, 0x80, 0x08] =
       some (.ok (toPat32 (-2147483648), []))) := by
  refine ⟨⟨?_, toSigned_toPat32 v hlo hhi⟩, ?_, ?_⟩
  · have h := getVarintLoop_put_varint [] (toPat32 v) 0 0
      (by simpa using toPat32_lt v) (by decide) (by decide)
    simpa [get_varint, get_varint_with_at_most, put_varint_i32] using h
  · refine ⟨?_, ?_, ?_, ?_, ?_, ?_, ?_, ?_, ?_, ?_⟩ <;>
      (simp [put_varint_i32, toPat32, put_varint] <;> decide)
  · refine ⟨?_, ?_, ?_, ?_, ?_, ?_, ?_, ?_, ?_, ?_⟩ <;> decide

/-- Witness for C4 at the value `25565`. -/
theorem varint_roundtrip_witness :
    get_varint (put_varint_i32 25565) = some (.ok (toPat32 25565, [])) ∧
    toSigned 32 (toPat32 25565) = 25565 :=
  (varint_roundtrip 25565 (by norm_num) (by norm_num)).1

/-- C5 amended: the frame length is read with `try_get_varint` at
budget parameter 3, which fails with `TooBig` exactly when the first
four length bytes all carry the continuation bit, and accepts every
length encoding of at most 4 bytes — so the length read itself can
yield declared lengths up to `2^28 - 1` without reporting `TooBig`.
Nevertheless every frame that `check_packet` accepts (an
`Ok(PacketCheckOutcome::Ok)` result) declares a payload length below
`2^16` — building the outcome converts the length to `u16`, panicking
otherwise — and hence at most `2^21 - 1`, as the claim concluded.
The packet id is read with `get_varint` (budget parameter 4), which
accepts any varint encoding of up to 5 bytes. -/
theorem frame_length_and_id_budgets :
    (∀ b0 b1 b2 b3 rest, b0 &&& 128 ≠ 0 → b1 &&& 128 ≠ 0 → b2 &&& 128 ≠ 0 →
      b3 &&& 128 ≠ 0 →
      check_packet (b0 :: b1 :: b2 :: b3 :: rest) = some (.error .tooBig)) ∧
    (∀ cs t rest, (∀ c ∈ cs, c &&& 128 ≠ 0) → t &&& 128 = 0 → cs.length ≤ 3 →
      ∃ v, try_get_varint_with_at_most 3 (cs ++ t :: rest) =
        .ok (some (v, rest))) ∧
    (try_get_varint_with_at_most 3 [0xFF, 0xFF, 0xFF, 0x7F] =
      .ok (some (2 ^ 28 - 1, []))) ∧
    (∀ buf len packetId rest,
      check_packet buf = some (.ok (.okFrame len packetId, rest)) →
      len < 2 ^ 16 ∧ len ≤ 2 ^ 21 - 1) ∧
    (∀ cs t rest, (∀ c ∈ cs, c &&& 128 ≠ 0) → t &&& 128 = 0 → cs.length ≤ 4 →
      ∃ v, get_varint (cs ++ t :: rest) = some (.ok (v, rest))) := by
  refine ⟨?_, ?_, by decide, ?_, ?_⟩
  · intro b0 b1 b2 b3 rest h0 h1 h2 h3
    have e0 : (b0 &&& 128 == 0) = false := by simpa using h0
    have e1 : (b1 &&& 128 == 0) = false := by simpa using h1
    have e2 : (b2 &&& 128 == 0) = false := by simpa using h2
    have e3 : (b3 &&& 128 == 0) = false := by simpa using h3
    simp [check_packet, try_get_varint_with_at_most, tryGetVarintLoop,
      e0, e1, e2, e3]
  · intro cs t rest hcs ht hlen
    exact tryGetVarintLoop_accepts 3 rest t ht cs 0 0 hcs (by omega)
  · intro buf len packetId rest h
    unfold check_packet at h
    rcases htry : try_get_varint_with_at_most 3 buf with e | o
    · rw [htry] at h
      simp at h
    · rw [htry] at h
      rcases o with _ | ⟨l, r⟩
      · simp at h
      · simp only at h
        by_cases hl : r.length < l
        · simp [hl] at h
        · simp only [hl, if_false] at h
          rcases hgv : get_varint r with _ | res
          · rw [hgv] at h
            simp at h
          · rw [hgv] at h
            rcases res with e | ⟨pid2, r2⟩
            · simp at h
            · by_cases hu : l < 2 ^ 16
              · simp only [hu, if_true, Option.some.injEq] at h
                have hlen2 : l = len := by
                  cases h
                  rfl
                omega
              · simp [hu] at h
                exact absurd h.1 (by omega)
  · intro cs t rest hcs ht hlen
    exact getVarintLoop_accepts 4 rest t ht cs 0 0 hcs (by omega)

/-- Witness for the amended C5 theorem: four continuation bytes make
the length read fail with `TooBig`; a terminal 4-byte length encoding
is accepted by the length read; a concrete accepted frame carries its
length bound; a terminal 5-byte id encoding is accepted by the id
read. -/
theorem frame_length_and_id_budgets_witness :
    check_packet [0x80, 0x80, 0x80, 0x80] = some (.error .tooBig) ∧
    (∃ v, try_get_varint_with_at_most 3 [0x80, 0x80, 0x80, 0x01] =
      .ok (some (v, []))) ∧
    (2 < 2 ^ 16 ∧ 2 ≤ 2 ^ 21 - 1) ∧
    (∃ v, get_varint [0x80, 0x80, 0x80, 0x80, 0x01] = some (.ok (v, []))) :=
  ⟨frame_length_and_id_budgets.1 0x80 0x80 0x80 0x80 []
      (by decide) (by decide) (by decide) (by decide),
   frame_length_and_id_budgets.2.1 [0x80, 0x80, 0x80] 0x01 []
      (by decide) (by decide) (by decide),
   frame_length_and_id_budgets.2.2.2.1 [0x02, 0x05, 0x00] 2 5 [0x00]
      (by decide),
   frame_length_and_id_budgets.2.2.2.2 [0x80, 0x80, 0x80, 0x80] 0x01 []
      (by decide) (by decide) (by decide)⟩
